import Mathlib

/-!
Shallow embedding of the AkropolisOS Substrate bridge module
(`src/runtime/src/bridge.rs`) and proofs about its proposal lifecycle:
deduplication of attestations, vote tallying, threshold resolution,
deadline expiry and action execution.

Modelling conventions:
* `MemberId`, `ProposalId`, `TokenBalance`, `TokenId`, account ids and block
  numbers (defined in `crate::types`, which is not part of the staged
  sources) are modelled as `Nat`, following the spec's data model which
  describes them as integers.  `checked_add` on `Nat` therefore never fails,
  so the "Overflow adding a new bridge proposal" branch is unreachable in
  the model.
* Storage maps (`StorageMap`) are modelled as functions `key → Option value`;
  `exists` is `Option.isSome`, `get` is `Option.getD` of the type's default
  (Substrate's `get` on a missing key returns `Default::default()`), `insert`
  and `remove` are pointwise updates.  `OpenBridgeProposals` maps a block
  number to a `Vec<ProposalId>`, modelled as `Nat → List Nat` with `[]` for a
  missing key.
* `message_id.using_encoded(Hashing::hash)` produces the content fingerprint
  of an attestation.  Hashing lives in the host (`system::Trait::Hashing`);
  submissions are modelled as carrying the fingerprint (`Nat`) directly,
  with `0` standing for `T::Hash::default()`.
* Modelled from the spec: the ledger primitives `token::_mint` / `token::_burn`
  and `token::check_token_exist` (crate `token`, not among the staged
  sources) are external collaborators (spec section 1 places the ledger out
  of scope).  They are modelled as always-succeeding effects; an invocation
  of `execute_proposal` is recorded in the step's execution list as the pair
  of the proposal id and its action.  `token_default().id` and
  `token_id_by_symbol` are modelled as the constant token id `0`.
* Extrinsic dispatch is modelled in an `Except String` monad; every `ensure!`
  in the source fires before any storage write on its path, so returning the
  untouched pre-state on error coincides with Substrate's
  keep-storage-on-error dispatch semantics here.
-/

namespace AkroBridge

/-- Model of enum `Action<AccountId>` from `src/runtime/src/bridge.rs`:
`EmptyAction`, `Ethereum2Substrate(TokenId, AccountId, TokenBalance)` and
`Substrate2Ethereum(TokenId, AccountId, TokenBalance)`. -/
inductive Action where
  | EmptyAction : Action
  | Ethereum2Substrate (token_id : Nat) (to_acc : Nat) (amount : Nat) : Action
  | Substrate2Ethereum (token_id : Nat) (from_acc : Nat) (amount : Nat) : Action
deriving DecidableEq

/-- Model of struct `BridgeProposal<AccountId, VotingDeadline>`:
`proposal_id`, `action`, `open`, `voting_deadline`, `votes_count`.  The field
`open` is renamed `open_` because `open` is a Lean keyword. -/
structure BridgeProposal where
  proposal_id : Nat
  action : Action
  open_ : Bool
  voting_deadline : Nat
  votes_count : Nat
deriving DecidableEq

/-- Model of `impl Default for BridgeProposal`: id 0, `EmptyAction`,
`open = true`, deadline 0, votes 0. -/
def default_proposal : BridgeProposal :=
  { proposal_id := 0, action := Action.EmptyAction, open_ := true,
    voting_deadline := 0, votes_count := 0 }

/-- Model of the module's `decl_event!` events. -/
inductive RawEvent where
  | NewVote (proposal_id : Nat) (voter : Nat) (vote : Bool)
  | ProposeToMint (token_id : Nat) (to_acc : Nat) (amount : Nat)
  | ProposeToBurn (token_id : Nat) (from_acc : Nat) (amount : Nat)
  | ProposalIsAccepted (proposal_id : Nat)
  | ProposalIsExpired (proposal_id : Nat)
  | ProposalIsRejected (proposal_id : Nat)
deriving DecidableEq

/-- Model of the module's `decl_storage!` block plus the host's current block
number (`system::Module::block_number()`).  `OpenBridgeProposalsIndex` is
declared in the source but never read or written by any function of the
module, so it is omitted.  `Validators` / `ValidatorsAccounts` map a member
id to an account; the module never reads them either (no membership check on
voters), but the map is carried so that "registered validator" is expressible. -/
structure BridgeState where
  /-- `BridgeProposals`: map `ProposalId => BridgeProposal`. -/
  proposals : Nat → Option BridgeProposal
  /-- `BridgeProposalsCount : ProposalId`. -/
  proposalsCount : Nat
  /-- `BridgeProposalsPeriodLimit` (config, default 30). -/
  periodLimit : Nat
  /-- `OpenBridgeProposalsLimit` (config, default 2). -/
  openLimit : Nat
  /-- `OpenBridgeProposals`: map block number => `Vec<ProposalId>`. -/
  openProposals : Nat → List Nat
  /-- `OpenBridgeProposalsHashes`: map fingerprint => `ProposalId`. -/
  hashes : Nat → Option Nat
  /-- `OpenBridgeProposalsHashesIndex`: map `ProposalId` => fingerprint. -/
  hashesIndex : Nat → Option Nat
  /-- `EthereumAdressHashes`: map `ProposalId` => `Vec<u8>`. -/
  ethAddresses : Nat → Option (List Nat)
  /-- `ValidatorsCount` (config, default 3). -/
  validatorsCount : Nat
  /-- `Validators`: map `MemberId` => validator account. -/
  validators : Nat → Option Nat
  /-- Host block number, supplied by `system::Module::block_number()`. -/
  blockNumber : Nat

/-- Genesis state: empty maps, zero counters, the `decl_storage!` config
defaults (`periodLimit = 30`, `openLimit = 2`, `validatorsCount = 3`) and no
registered validators. -/
def genesis : BridgeState :=
  { proposals := fun _ => none
    proposalsCount := 0
    periodLimit := 30
    openLimit := 2
    openProposals := fun _ => []
    hashes := fun _ => none
    hashesIndex := fun _ => none
    ethAddresses := fun _ => none
    validatorsCount := 3
    validators := fun _ => none
    blockNumber := 0 }

/-- Model of `fn votes_are_enough(votes: MemberId) -> bool`, source line 220:
`votes as f64 / Self::validators_count() as f64 >= 0.51`, under exact IEEE-754
binary64 semantics.  For `votes, validators_count < 2 ^ 53` the integer-to-f64
conversions are exact and the quotient is the correctly rounded (to nearest,
ties to even) binary64 value of the rational `votes / validators_count`; the
literal `0.51` denotes the nearest binary64 value, `4593671619917906 / 2 ^ 53`
(the significand rounds up, so this is strictly above `51 / 100`).  Rounding
to nearest is monotone, so the rounded quotient is at or above that value
exactly when the exact quotient is at or above the midpoint between it and
the next binary64 value below, namely `9187343239835811 / 2 ^ 54`; an exact
tie at that midpoint is impossible because its reduced denominator `2 ^ 54`
exceeds any admissible `validators_count < 2 ^ 53`.  Hence the comparison
holds iff `votes * 2 ^ 54 ≥ 9187343239835811 * validators_count`, except
that `0 / 0` is NaN (compares false) while `votes / 0` for positive `votes`
is `+inf` (compares true), giving the first branch. -/
def votes_are_enough (votes : Nat) (validators_count : Nat) : Bool :=
  if votes == 0 && validators_count == 0 then false
  else 9187343239835811 * validators_count ≤ votes * 2 ^ 54

/-- The spec's own acceptance rule (spec section 4.2): accept exactly when
`votes * 100 >= 51 * validatorCount`, in exact integer arithmetic. -/
def spec_votes_are_enough (votes : Nat) (validators_count : Nat) : Bool :=
  51 * validators_count ≤ votes * 100

/-- One recorded executor invocation: the proposal id it was invoked for and
the action delegated to the ledger. -/
abbrev Execution := Nat × Action

/-- Model of `fn execute_proposal`: exhaustive dispatch on the action,
delegating `Substrate2Ethereum` to `token::_burn` and `Ethereum2Substrate`
to `token::_mint` (external ledger, recorded as an effect), `EmptyAction`
to `Ok(())`.  Every branch records the invocation. -/
def execute_proposal (proposal : BridgeProposal) : List Execution :=
  match proposal.action with
  | Action.Substrate2Ethereum t f a =>
      [(proposal.proposal_id, Action.Substrate2Ethereum t f a)]
  | Action.Ethereum2Substrate t acc a =>
      [(proposal.proposal_id, Action.Ethereum2Substrate t acc a)]
  | Action.EmptyAction => [(proposal.proposal_id, Action.EmptyAction)]

/-- Model of `fn close_proposal`: set `open = false`, re-insert the record at
key `proposal.proposal_id`, look the fingerprint up in
`OpenBridgeProposalsHashesIndex` (`get` of a missing key yields the default
hash, modelled `0`) and remove both fingerprint map entries. -/
def close_proposal (s : BridgeState) (proposal : BridgeProposal) : BridgeState :=
  let proposal_id := proposal.proposal_id
  let closed := { proposal with open_ := false }
  let proposal_hash := (s.hashesIndex proposal_id).getD 0
  { s with
    proposals := fun pid => if pid = proposal_id then some closed else s.proposals pid
    hashes := fun h => if h = proposal_hash then none else s.hashes h
    hashesIndex := fun pid => if pid = proposal_id then none else s.hashesIndex pid }

/-- Outcome of one successful call: the post state, the events deposited (in
order) and the executor invocations made. -/
structure CallOutcome where
  state : BridgeState
  events : List RawEvent
  execs : List Execution

/-- Resolution tail of `fn _vote` (source lines 186-205), applied to the
record with the vote already tallied: recompute `proposal_is_accepted` via
`votes_are_enough` and `all_validators_voted` via the source's hardcoded
literal `proposal.votes_count == 3`, execute on acceptance, close on
acceptance or full turnout and otherwise persist the updated record, then
deposit `NewVote` and the terminal event. -/
def vote_finish (s : BridgeState) (voter : Nat) (proposal_id : Nat) (vote : Bool)
    (proposal : BridgeProposal) : CallOutcome :=
  let proposal_is_accepted := votes_are_enough proposal.votes_count s.validatorsCount
  let all_validators_voted := proposal.votes_count == 3
  let execs := if proposal_is_accepted then execute_proposal proposal else []
  let s' :=
    if proposal_is_accepted || all_validators_voted then close_proposal s proposal
    else { s with
      proposals := fun pid => if pid = proposal_id then some proposal else s.proposals pid }
  let events :=
    RawEvent.NewVote proposal_id voter vote ::
      (if proposal_is_accepted then [RawEvent.ProposalIsAccepted proposal_id]
       else if all_validators_voted then [RawEvent.ProposalIsRejected proposal_id]
       else [])
  { state := s', events := events, execs := execs }

/-- Model of `fn _vote(voter, proposal_id, vote) -> Result`, source lines
173-208: ensure the proposal exists, ensure it is open, increment
`votes_count` when the vote assents, then run the resolution tail
(`vote_finish`). -/
def _vote (s : BridgeState) (voter : Nat) (proposal_id : Nat) (vote : Bool) :
    Except String CallOutcome :=
  match s.proposals proposal_id with
  | none => Except.error "This proposal not exists"
  | some stored =>
    if stored.open_ = false then Except.error "This proposal is not open"
    else
      Except.ok (vote_finish s voter proposal_id vote
        (if vote then { stored with votes_count := stored.votes_count + 1 } else stored))

/-- Model of `fn create_proposal(proposal_hash, action) -> Result`, source
lines 234-268: deadline is `block_number + proposals_period_limit`; ensure
the deadline bucket is below `open_proposals_per_block`; ensure the
fingerprint is not already registered; allocate `proposal_id =
BridgeProposalsCount`; `checked_add(1)` cannot overflow on `Nat`; then the
writes, including the source's `mutate(|count| *count +=
new_bridge_proposals_count)`, which adds `count + 1` to `count`. -/
def create_proposal (s : BridgeState) (proposal_hash : Nat) (action : Action) :
    Except String BridgeState :=
  let voting_deadline := s.blockNumber + s.periodLimit
  let open_proposals := s.openProposals voting_deadline
  if open_proposals.length < s.openLimit then
    if (s.hashes proposal_hash).isSome then Except.error "This proposal already open"
    else
      let proposal_id := s.proposalsCount
      let new_bridge_proposals_count := s.proposalsCount + 1
      let proposal : BridgeProposal :=
        { proposal_id := proposal_id, action := action, open_ := true,
          voting_deadline := voting_deadline, votes_count := 0 }
      let pushed := open_proposals ++ [proposal_id]
      Except.ok { s with
        proposals := fun pid => if pid = proposal_id then some proposal else s.proposals pid
        proposalsCount := s.proposalsCount + new_bridge_proposals_count
        openProposals := fun bn => if bn = voting_deadline then pushed else s.openProposals bn
        hashes := fun h => if h = proposal_hash then some proposal_id else s.hashes h
        hashesIndex := fun pid => if pid = proposal_id then some proposal_hash else s.hashesIndex pid }
  else Except.error "Maximum number of open proposals is reached for the target block, try later"

/-- Model of extrinsic `fn substrate2eth(origin, message_id, to, from, amount)`,
source lines 100-124: the caller is the signed origin; the fingerprint is the
hash of `message_id`; the action is `Substrate2Ethereum(token_default().id,
from, amount)`.  Reuse the open proposal registered for the fingerprint, or
create one and deposit `ProposeToBurn`; then `_vote(caller, proposal_id,
true)` and record the destination Ethereum address. -/
def substrate2eth (s : BridgeState) (caller : Nat) (proposal_hash : Nat)
    (to_addr : List Nat) (from_acc : Nat) (amount : Nat) : Except String CallOutcome :=
  let token_id := 0
  let action := Action.Substrate2Ethereum token_id from_acc amount
  match s.hashes proposal_hash with
  | some pid =>
    match _vote s caller pid true with
    | Except.error e => Except.error e
    | Except.ok o =>
      Except.ok { o with state := { o.state with
        ethAddresses := fun p => if p = pid then some to_addr else o.state.ethAddresses p } }
  | none =>
    match create_proposal s proposal_hash action with
    | Except.error e => Except.error e
    | Except.ok s1 =>
      match _vote s1 caller ((s1.hashes proposal_hash).getD 0) true with
      | Except.error e => Except.error e
      | Except.ok o =>
        let s2 := { o.state with
          ethAddresses := fun p => if p = (s1.hashes proposal_hash).getD 0 then some to_addr
            else o.state.ethAddresses p }
        Except.ok { state := s2,
                    events := RawEvent.ProposeToBurn token_id from_acc amount :: o.events,
                    execs := o.execs }

/-- Model of extrinsic `fn eth2substrate(origin, message_id, from, to, amount)`,
source lines 126-151: like `substrate2eth` with action
`Ethereum2Substrate(token_id, to, amount)` and event `ProposeToMint`;
`token::check_token_exist` and `token_id_by_symbol` belong to the external
token module and are modelled as succeeding with token id `0`. -/
def eth2substrate (s : BridgeState) (caller : Nat) (proposal_hash : Nat)
    (from_addr : List Nat) (to_acc : Nat) (amount : Nat) : Except String CallOutcome :=
  let token_id := 0
  let action := Action.Ethereum2Substrate token_id to_acc amount
  match s.hashes proposal_hash with
  | some pid =>
    match _vote s caller pid true with
    | Except.error e => Except.error e
    | Except.ok o =>
      Except.ok { o with state := { o.state with
        ethAddresses := fun p => if p = pid then some from_addr else o.state.ethAddresses p } }
  | none =>
    match create_proposal s proposal_hash action with
    | Except.error e => Except.error e
    | Except.ok s1 =>
      match _vote s1 caller ((s1.hashes proposal_hash).getD 0) true with
      | Except.error e => Except.error e
      | Except.ok o =>
        let s2 := { o.state with
          ethAddresses := fun p => if p = (s1.hashes proposal_hash).getD 0 then some from_addr
            else o.state.ethAddresses p }
        Except.ok { state := s2,
                    events := RawEvent.ProposeToMint token_id to_acc amount :: o.events,
                    execs := o.execs }

/-- One iteration of the `for_each` in `fn on_finalize`: read the proposal
(`get` of a missing key yields the default record, whose `open` is `true`),
and when it is open, close it and deposit `ProposalIsExpired`. -/
def finalize_step (acc : BridgeState × List RawEvent) (proposal_id : Nat) :
    BridgeState × List RawEvent :=
  let proposal := (acc.1.proposals proposal_id).getD default_proposal
  if proposal.open_ then
    (close_proposal acc.1 proposal, acc.2 ++ [RawEvent.ProposalIsExpired proposal_id])
  else acc

/-- Model of `fn on_finalize()`, source lines 153-168: read the bucket for
the current block number once, process each entry in order, then remove the
bucket.  No executor invocation occurs on this path. -/
def on_finalize (s : BridgeState) : BridgeState × List RawEvent :=
  let block_number := s.blockNumber
  let swept := (s.openProposals block_number).foldl finalize_step (s, [])
  ({ swept.1 with
      openProposals := fun bn => if bn = block_number then [] else swept.1.openProposals bn },
   swept.2)

/-- One externally admitted step: a `substrate2eth` submission, an
`eth2substrate` submission, a bare application of the vote tally `_vote`
(assenting or dissenting), or the host finalizing the current block (running
`on_finalize` and advancing the block number). -/
inductive Cmd where
  | sub2eth (caller : Nat) (proposal_hash : Nat) (to_addr : List Nat) (from_acc : Nat) (amount : Nat)
  | eth2sub (caller : Nat) (proposal_hash : Nat) (from_addr : List Nat) (to_acc : Nat) (amount : Nat)
  | vote (voter : Nat) (proposal_id : Nat) (v : Bool)
  | finalize

/-- Dispatch one step.  A failed extrinsic leaves the state unchanged (every
`ensure!` of the source fires before any write on its path, see the module
docstring), deposits nothing and executes nothing. -/
def stepCmd (s : BridgeState) : Cmd → BridgeState × List RawEvent × List Execution
  | Cmd.sub2eth caller h td f a =>
    match substrate2eth s caller h td f a with
    | Except.error _ => (s, [], [])
    | Except.ok o => (o.state, o.events, o.execs)
  | Cmd.eth2sub caller h f ta a =>
    match eth2substrate s caller h f ta a with
    | Except.error _ => (s, [], [])
    | Except.ok o => (o.state, o.events, o.execs)
  | Cmd.vote voter pid v =>
    match _vote s voter pid v with
    | Except.error _ => (s, [], [])
    | Except.ok o => (o.state, o.events, o.execs)
  | Cmd.finalize =>
    let swept := on_finalize s
    ({ swept.1 with blockNumber := swept.1.blockNumber + 1 }, swept.2, [])

/-- One entry of a run's trace: the state before the step, the state after,
the events deposited and the executor invocations made. -/
structure Step where
  pre : BridgeState
  post : BridgeState
  events : List RawEvent
  execs : List Execution

/-- The trace of a command sequence from a state. -/
def runTrace (s : BridgeState) : List Cmd → List Step
  | [] => []
  | c :: cs =>
    let r := stepCmd s c
    { pre := s, post := r.1, events := r.2.1, execs := r.2.2 } :: runTrace r.1 cs

/-- The state a command sequence ends in. -/
def runState (s : BridgeState) : List Cmd → BridgeState
  | [] => s
  | c :: cs => runState (stepCmd s c).1 cs

/-- The stored proposal record is present and open. -/
def openIn (s : BridgeState) (proposal_id : Nat) : Bool :=
  match s.proposals proposal_id with
  | some p => p.open_
  | none => false

/-- The stored proposal record is present and closed. -/
def closedIn (s : BridgeState) (proposal_id : Nat) : Bool :=
  match s.proposals proposal_id with
  | some p => !p.open_
  | none => false

/-- How many executor invocations a trace makes for a proposal id. -/
def execCount (trace : List Step) (proposal_id : Nat) : Nat :=
  (trace.map (fun st => st.execs.countP (fun e => e.1 == proposal_id))).sum

/-- How many proposals in the deadline bucket for `bn` are currently open. -/
def openCountInBucket (s : BridgeState) (bn : Nat) : Nat :=
  (s.openProposals bn).countP (fun pid => openIn s pid)

/-- Every stored proposal record carries the key it is stored under (creation
inserts the record at its own `proposal_id` and no operation changes the
field). -/
def IdMatch (s : BridgeState) : Prop :=
  ∀ pid p, s.proposals pid = some p → p.proposal_id = pid

/-- Every stored proposal id is below the allocation counter. -/
def Bounded (s : BridgeState) : Prop :=
  ∀ pid, (s.proposals pid).isSome → pid < s.proposalsCount

/-- Every deadline-bucket entry has a stored proposal record. -/
def BucketsValid (s : BridgeState) : Prop :=
  ∀ bn pid, pid ∈ s.openProposals bn → (s.proposals pid).isSome

/-- The reachability invariant the proofs thread through every step. -/
def WF (s : BridgeState) : Prop :=
  IdMatch s ∧ Bounded s ∧ BucketsValid s

/-- Invariant of the `on_finalize` fold, relative to the pre-sweep state
`s0`: ids still match, counter and buckets untouched, and every record is
either untouched or was an open record of `s0` that the sweep closed while
depositing its `ProposalIsExpired` event. -/
def SweepInv (s0 : BridgeState) (acc : BridgeState × List RawEvent) : Prop :=
  IdMatch acc.1 ∧
  acc.1.proposalsCount = s0.proposalsCount ∧
  acc.1.openProposals = s0.openProposals ∧
  ∀ q, acc.1.proposals q = s0.proposals q ∨
    ∃ p, s0.proposals q = some p ∧ p.open_ = true ∧
      acc.1.proposals q = some { p with open_ := false } ∧
      RawEvent.ProposalIsExpired q ∈ acc.2

/-- A reachable state holding a closed proposal: two assenting attestations
of the same mint event from distinct callers; the second reaches the
threshold (2 of 3), executes and closes proposal 0. -/
def c9cmds : List Cmd := [Cmd.eth2sub 1 10 [] 7 100, Cmd.eth2sub 2 10 [] 7 100]

def c9state : BridgeState := runState genesis c9cmds

def c9record : BridgeProposal :=
  { proposal_id := 0, action := Action.Ethereum2Substrate 0 7 100, open_ := false,
    voting_deadline := 30, votes_count := 2 }

/-- Whether a call returned `Ok`. -/
def okResult (r : Except String CallOutcome) : Bool :=
  match r with
  | Except.ok _ => true
  | Except.error _ => false

/-- The state a call left behind (the pre state if it failed). -/
def postState (r : Except String CallOutcome) (s : BridgeState) : BridgeState :=
  match r with
  | Except.ok o => o.state
  | Except.error _ => s

/-- The events a call deposited. -/
def eventsOf (r : Except String CallOutcome) : List RawEvent :=
  match r with
  | Except.ok o => o.events
  | Except.error _ => []

/-- The executor invocations a call made. -/
def execsOf (r : Except String CallOutcome) : List Execution :=
  match r with
  | Except.ok o => o.execs
  | Except.error _ => []

/-- A state with six configured validators and an open proposal that has
gathered two assenting votes; ids match and the dedup index is consistent. -/
def c3state : BridgeState :=
  { genesis with
    validatorsCount := 6
    proposalsCount := 1
    proposals := fun p => if p = 0 then
        some { proposal_id := 0, action := Action.EmptyAction, open_ := true,
               voting_deadline := 30, votes_count := 2 }
      else none
    hashes := fun h => if h = 99 then some 0 else none
    hashesIndex := fun p => if p = 0 then some 99 else none
    openProposals := fun bn => if bn = 30 then [0] else [] }

/-- Two submissions with distinct fingerprints from genesis. -/
def c4cmds : List Cmd := [Cmd.eth2sub 1 10 [] 7 100, Cmd.eth2sub 2 20 [] 8 100]

def c4state : BridgeState := runState genesis c4cmds

/-- A state with an open proposal and an empty validator registry. -/
def c8state : BridgeState :=
  { genesis with
    proposalsCount := 1
    proposals := fun p => if p = 0 then
        some { proposal_id := 0, action := Action.EmptyAction, open_ := true,
               voting_deadline := 30, votes_count := 0 }
      else none
    hashes := fun h => if h = 99 then some 0 else none
    hashesIndex := fun p => if p = 0 then some 99 else none
    openProposals := fun bn => if bn = 30 then [0] else [] }

/-- A small state with one open proposal carrying one vote. -/
def c10state : BridgeState :=
  { genesis with
    proposalsCount := 1
    proposals := fun p => if p = 0 then
        some { proposal_id := 0, action := Action.EmptyAction, open_ := true,
               voting_deadline := 30, votes_count := 1 }
      else none
    hashes := fun h => if h = 99 then some 0 else none
    hashesIndex := fun p => if p = 0 then some 99 else none
    openProposals := fun bn => if bn = 30 then [0] else [] }

/-- A state whose dedup index maps fingerprint 7 to open proposal 0. -/
def c5state : BridgeState :=
  { genesis with
    proposalsCount := 1
    proposals := fun p => if p = 0 then
        some { proposal_id := 0, action := Action.EmptyAction, open_ := true,
               voting_deadline := 30, votes_count := 0 }
      else none
    hashes := fun h => if h = 7 then some 0 else none
    hashesIndex := fun p => if p = 0 then some 7 else none
    openProposals := fun bn => if bn = 30 then [0] else [] }

/-- A state at block 30 whose deadline bucket for 30 holds open proposal 0. -/
def c6state : BridgeState :=
  { genesis with
    blockNumber := 30
    proposalsCount := 1
    proposals := fun p => if p = 0 then
        some { proposal_id := 0, action := Action.EmptyAction, open_ := true,
               voting_deadline := 30, votes_count := 1 }
      else none
    hashes := fun h => if h = 7 then some 0 else none
    hashesIndex := fun p => if p = 0 then some 7 else none
    openProposals := fun bn => if bn = 30 then [0] else [] }

/-- Four submissions filling the block-30 deadline bucket with two proposals
that both reach the 2-of-3 threshold and close, leaving their (now stale)
bucket entries behind. -/
def c7cmds : List Cmd :=
  [Cmd.sub2eth 1 10 [] 7 100, Cmd.sub2eth 2 10 [] 7 100,
   Cmd.sub2eth 1 20 [] 7 100, Cmd.sub2eth 2 20 [] 7 100]

def c7state : BridgeState := runState genesis c7cmds

/-- Whether a call failed with the bucket-capacity error. -/
def isCapacityErr (r : Except String CallOutcome) : Bool :=
  match r with
  | Except.error e =>
    e == "Maximum number of open proposals is reached for the target block, try later"
  | Except.ok _ => false

theorem wf_genesis : WF genesis := by
  refine ⟨?_, ?_, ?_⟩
  · intro a b h; simp [genesis] at h
  · intro a h; simp [genesis] at h
  · intro a b h; simp [genesis] at h

theorem close_proposals_at (s : BridgeState) (p : BridgeProposal) (q : Nat) :
    (close_proposal s p).proposals q =
      if q = p.proposal_id then some { p with open_ := false } else s.proposals q := rfl

theorem close_count (s : BridgeState) (p : BridgeProposal) :
    (close_proposal s p).proposalsCount = s.proposalsCount := rfl

theorem close_openProposals (s : BridgeState) (p : BridgeProposal) :
    (close_proposal s p).openProposals = s.openProposals := rfl

theorem close_validatorsCount (s : BridgeState) (p : BridgeProposal) :
    (close_proposal s p).validatorsCount = s.validatorsCount := rfl

/-- Success inversion for `_vote`: the proposal exists and is open, and the
outcome is `vote_finish` of the tallied record. -/
theorem vote_ok_inv {s : BridgeState} {voter pid : Nat} {v : Bool} {o : CallOutcome}
    (h : _vote s voter pid v = Except.ok o) :
    ∃ stored, s.proposals pid = some stored ∧ stored.open_ = true ∧
      o = vote_finish s voter pid v
        (if v then { stored with votes_count := stored.votes_count + 1 } else stored) := by
  unfold _vote at h
  split at h
  · exact absurd h (by simp)
  · rename_i stored hsp
    split at h
    · exact absurd h (by simp)
    · rename_i hop
      rw [Except.ok.injEq] at h
      exact ⟨stored, hsp, by simpa using hop, h.symm⟩

/-- Failure characterization for `_vote` on a closed proposal. -/
theorem vote_closed_fails {s : BridgeState} {voter pid : Nat} {v : Bool} {p : BridgeProposal}
    (hp : s.proposals pid = some p) (hcl : p.open_ = false) :
    _vote s voter pid v = Except.error "This proposal is not open" := by
  unfold _vote
  rw [hp]
  simp [hcl]

/-- The executor records exactly one invocation: the proposal's id and action. -/
theorem execute_singleton (p : BridgeProposal) :
    execute_proposal p = [(p.proposal_id, p.action)] := by
  unfold execute_proposal
  cases p.action <;> rfl

theorem vf_state (s : BridgeState) (voter pid : Nat) (v : Bool) (p : BridgeProposal) :
    (vote_finish s voter pid v p).state =
      if votes_are_enough p.votes_count s.validatorsCount || (p.votes_count == 3)
      then close_proposal s p
      else { s with
        proposals := fun q => if q = pid then some p else s.proposals q } := rfl

theorem vf_execs (s : BridgeState) (voter pid : Nat) (v : Bool) (p : BridgeProposal) :
    (vote_finish s voter pid v p).execs =
      if votes_are_enough p.votes_count s.validatorsCount then execute_proposal p
      else [] := rfl

theorem vf_events (s : BridgeState) (voter pid : Nat) (v : Bool) (p : BridgeProposal) :
    (vote_finish s voter pid v p).events =
      RawEvent.NewVote pid voter v ::
        (if votes_are_enough p.votes_count s.validatorsCount
         then [RawEvent.ProposalIsAccepted pid]
         else if p.votes_count == 3 then [RawEvent.ProposalIsRejected pid]
         else []) := rfl

/-- Success inversion for `create_proposal`: fingerprint fresh, bucket below
the limit, and the post state is the written record. -/
theorem create_ok_inv {s : BridgeState} {fp : Nat} {a : Action} {s' : BridgeState}
    (hc : create_proposal s fp a = Except.ok s') :
    s.hashes fp = none ∧
    (s.openProposals (s.blockNumber + s.periodLimit)).length < s.openLimit ∧
    s' = { s with
      proposals := fun pid => if pid = s.proposalsCount then
          some { proposal_id := s.proposalsCount, action := a, open_ := true,
                 voting_deadline := s.blockNumber + s.periodLimit, votes_count := 0 }
        else s.proposals pid,
      proposalsCount := s.proposalsCount + (s.proposalsCount + 1),
      openProposals := fun bn => if bn = s.blockNumber + s.periodLimit then
          s.openProposals (s.blockNumber + s.periodLimit) ++ [s.proposalsCount]
        else s.openProposals bn,
      hashes := fun h => if h = fp then some s.proposalsCount else s.hashes h,
      hashesIndex := fun pid => if pid = s.proposalsCount then some fp else s.hashesIndex pid } := by
  unfold create_proposal at hc
  by_cases hlen : (s.openProposals (s.blockNumber + s.periodLimit)).length < s.openLimit
  · by_cases hex : (s.hashes fp).isSome
    · simp only [hlen, hex, if_true, if_false] at hc
      exact absurd hc (by simp)
    · simp only [hlen, hex, if_true, if_false, Bool.false_eq_true, Except.ok.injEq] at hc
      exact ⟨by simpa [Option.isNone_iff_eq_none] using hex, hlen, hc.symm⟩
  · simp only [hlen, if_false] at hc
    exact absurd hc (by simp)

/-- Overwriting the record at an already-populated key `pid` with a record
carrying id `pid`, leaving the counter and the buckets alone, preserves `WF`. -/
theorem wf_overwrite {s s' : BridgeState} {pid : Nat} {p : BridgeProposal} (hwf : WF s)
    (hid : p.proposal_id = pid) (hex : (s.proposals pid).isSome)
    (hprop : ∀ q, s'.proposals q = if q = pid then some p else s.proposals q)
    (hcount : s'.proposalsCount = s.proposalsCount)
    (hbuck : s'.openProposals = s.openProposals) : WF s' := by
  obtain ⟨h1, h2, h3⟩ := hwf
  refine ⟨?_, ?_, ?_⟩
  · intro q r hq
    rw [hprop] at hq
    by_cases hqp : q = pid
    · rw [if_pos hqp] at hq
      cases hq
      exact hid.trans hqp.symm
    · rw [if_neg hqp] at hq
      exact h1 q r hq
  · intro q hq
    rw [hprop] at hq
    rw [hcount]
    by_cases hqp : q = pid
    · subst hqp; exact h2 q hex
    · rw [if_neg hqp] at hq
      exact h2 q hq
  · intro bn q hq
    rw [hbuck] at hq
    rw [hprop]
    by_cases hqp : q = pid
    · simp [hqp]
    · rw [if_neg hqp]
      exact h3 bn q hq

/-- The tallied record keeps the stored record's id. -/
theorem tallied_id (stored : BridgeProposal) (v : Bool) :
    (if v then { stored with votes_count := stored.votes_count + 1 } else stored).proposal_id
      = stored.proposal_id := by
  cases v <;> rfl

/-- `_vote` preserves the reachability invariant. -/
theorem vote_wf {s : BridgeState} {voter pid : Nat} {v : Bool} {o : CallOutcome}
    (hwf : WF s) (h : _vote s voter pid v = Except.ok o) : WF o.state := by
  obtain ⟨stored, hsp, hop, ho⟩ := vote_ok_inv h
  have hex : (s.proposals pid).isSome := by rw [hsp]; rfl
  have hid : stored.proposal_id = pid := hwf.1 pid stored hsp
  subst ho
  set p := (if v then { stored with votes_count := stored.votes_count + 1 } else stored) with hp
  have hpid : p.proposal_id = pid := by rw [hp, tallied_id, hid]
  rw [vf_state]
  split
  · exact wf_overwrite (p := { p with open_ := false }) hwf hpid hex
      (fun q => by rw [close_proposals_at, hpid]) (close_count ..) (close_openProposals ..)
  · exact wf_overwrite hwf hpid hex (fun q => rfl) rfl rfl

/-- `_vote` never touches a record other than its target's. -/
theorem vote_preserves_other {s : BridgeState} {voter pid : Nat} {v : Bool} {o : CallOutcome}
    (hwf : IdMatch s) (h : _vote s voter pid v = Except.ok o) {q : Nat} (hq : q ≠ pid) :
    o.state.proposals q = s.proposals q := by
  obtain ⟨stored, hsp, hop, ho⟩ := vote_ok_inv h
  have hid : stored.proposal_id = pid := hwf pid stored hsp
  subst ho
  set p := (if v then { stored with votes_count := stored.votes_count + 1 } else stored) with hp
  have hpid : p.proposal_id = pid := by rw [hp, tallied_id, hid]
  rw [vf_state]
  split
  · rw [close_proposals_at, hpid, if_neg hq]
  · simp only [if_neg hq]

/-- A closed record survives any `_vote` unchanged. -/
theorem vote_preserves_closed {s : BridgeState} {voter pid : Nat} {v : Bool} {o : CallOutcome}
    {q : Nat} {p : BridgeProposal} (hwf : IdMatch s)
    (hq : s.proposals q = some p) (hcl : p.open_ = false)
    (h : _vote s voter pid v = Except.ok o) : o.state.proposals q = some p := by
  by_cases hqp : q = pid
  · subst hqp
    obtain ⟨stored, hsp, hop, _⟩ := vote_ok_inv h
    rw [hq] at hsp
    cases hsp
    rw [hop] at hcl
    cases hcl
  · rw [vote_preserves_other hwf h hqp]
    exact hq

/-- The counter, buckets, config, block number and record domain are
untouched by a `_vote`. -/
theorem vote_frame {s : BridgeState} {voter pid : Nat} {v : Bool} {o : CallOutcome}
    (hwf : IdMatch s) (h : _vote s voter pid v = Except.ok o) :
    o.state.proposalsCount = s.proposalsCount ∧
    o.state.openProposals = s.openProposals ∧
    o.state.validatorsCount = s.validatorsCount ∧
    o.state.blockNumber = s.blockNumber ∧
    (∀ q, (o.state.proposals q).isSome = (s.proposals q).isSome) := by
  obtain ⟨stored, hsp, hop, ho⟩ := vote_ok_inv h
  have hid : stored.proposal_id = pid := hwf pid stored hsp
  subst ho
  set p := (if v then { stored with votes_count := stored.votes_count + 1 } else stored) with hp
  have hpid : p.proposal_id = pid := by rw [hp, tallied_id, hid]
  rw [vf_state]
  split
  · refine ⟨rfl, rfl, rfl, rfl, fun q => ?_⟩
    rw [close_proposals_at, hpid]
    by_cases hq : q = pid
    · subst hq; rw [if_pos rfl, hsp]; rfl
    · rw [if_neg hq]
  · refine ⟨rfl, rfl, rfl, rfl, fun q => ?_⟩
    dsimp only
    by_cases hq : q = pid
    · subst hq; rw [if_pos rfl, hsp]; rfl
    · rw [if_neg hq]

/-- Every executor invocation a `_vote` makes targets the voted proposal,
happens while that proposal is not closed, closes it in the same call, is
accompanied by the `ProposalIsAccepted` event, and is the only invocation of
the call. -/
theorem vote_exec_spec {s : BridgeState} {voter pid : Nat} {v : Bool} {o : CallOutcome}
    (hwf : IdMatch s) (h : _vote s voter pid v = Except.ok o)
    {e : Execution} (he : e ∈ o.execs) :
    e.1 = pid ∧ closedIn s pid = false ∧ closedIn o.state pid = true ∧
    RawEvent.ProposalIsAccepted pid ∈ o.events ∧ o.execs = [e] := by
  obtain ⟨stored, hsp, hop, ho⟩ := vote_ok_inv h
  have hid : stored.proposal_id = pid := hwf pid stored hsp
  subst ho
  set p := (if v then { stored with votes_count := stored.votes_count + 1 } else stored) with hp
  have hpid : p.proposal_id = pid := by rw [hp, tallied_id, hid]
  by_cases hacc : votes_are_enough p.votes_count s.validatorsCount = true
  · have hor : (votes_are_enough p.votes_count s.validatorsCount || (p.votes_count == 3)) = true := by
      rw [hacc]; rfl
    rw [vf_execs, if_pos hacc, execute_singleton] at he
    have he' : e = (p.proposal_id, p.action) := by simpa using he
    refine ⟨by rw [he', hpid], ?_, ?_, ?_, ?_⟩
    · simp [closedIn, hsp, hop]
    · rw [vf_state, if_pos hor]
      simp [closedIn, close_proposals_at, hpid]
    · rw [vf_events, if_pos hacc]
      simp
    · rw [vf_execs, if_pos hacc, execute_singleton, he']
  · rw [vf_execs, if_neg hacc] at he
    exact absurd he (List.not_mem_nil e)

/-- `create_proposal` preserves the reachability invariant. -/
theorem create_wf {s : BridgeState} {fp : Nat} {a : Action} {s' : BridgeState}
    (hwf : WF s) (hc : create_proposal s fp a = Except.ok s') : WF s' := by
  obtain ⟨hfresh, hlen, hs'⟩ := create_ok_inv hc
  obtain ⟨h1, h2, h3⟩ := hwf
  subst hs'
  refine ⟨?_, ?_, ?_⟩
  · intro q r hq
    dsimp only at hq
    by_cases hqc : q = s.proposalsCount
    · rw [if_pos hqc] at hq
      cases hq
      exact hqc.symm
    · rw [if_neg hqc] at hq
      exact h1 q r hq
  · intro q hq
    dsimp only at hq ⊢
    by_cases hqc : q = s.proposalsCount
    · subst hqc; omega
    · rw [if_neg hqc] at hq
      have := h2 q hq
      omega
  · intro bn q hq
    dsimp only at hq ⊢
    by_cases hqc : q = s.proposalsCount
    · simp [hqc]
    · rw [if_neg hqc]
      by_cases hbn : bn = s.blockNumber + s.periodLimit
      · rw [if_pos hbn] at hq
        have hq' : q ∈ s.openProposals (s.blockNumber + s.periodLimit) := by
          rcases List.mem_append.mp hq with h' | h'
          · exact h'
          · exact absurd (by simpa using h') hqc
        exact h3 _ q hq'
      · rw [if_neg hbn] at hq
        exact h3 bn q hq

/-- `create_proposal` never touches an existing record. -/
theorem create_preserves_record {s : BridgeState} {fp : Nat} {a : Action} {s' : BridgeState}
    (hb : Bounded s) (hc : create_proposal s fp a = Except.ok s')
    {q : Nat} {p : BridgeProposal} (hq : s.proposals q = some p) : s'.proposals q = some p := by
  obtain ⟨_, _, hs'⟩ := create_ok_inv hc
  subst hs'
  dsimp only
  have hlt : q < s.proposalsCount := hb q (by rw [hq]; rfl)
  rw [if_neg (by omega)]
  exact hq

/-- After a successful `create_proposal`, the fingerprint resolves to the id
the call allocated, `BridgeProposalsCount` before the call. -/
theorem create_hashes_at {s : BridgeState} {fp : Nat} {a : Action} {s' : BridgeState}
    (hb : Bounded s) (hc : create_proposal s fp a = Except.ok s') :
    s'.hashes fp = some s.proposalsCount ∧
    s'.proposals s.proposalsCount =
      some { proposal_id := s.proposalsCount, action := a, open_ := true,
             voting_deadline := s.blockNumber + s.periodLimit, votes_count := 0 } ∧
    s.proposals s.proposalsCount = none ∧
    s'.validatorsCount = s.validatorsCount := by
  have hnone : s.proposals s.proposalsCount = none := by
    cases hnc : s.proposals s.proposalsCount with
    | none => rfl
    | some r =>
      have := hb s.proposalsCount (by rw [hnc]; rfl)
      omega
  obtain ⟨hfresh, hlen, hs'⟩ := create_ok_inv hc
  subst hs'
  exact ⟨by simp, by simp, hnone, rfl⟩

/-- Success inversion for `substrate2eth`: either the fingerprint was
registered and the call is a vote on that proposal, or it was fresh and the
call is a create followed by a vote on the created proposal. -/
theorem sub2eth_ok_inv {s : BridgeState} {caller fp : Nat} {to_addr : List Nat}
    {from_acc amount : Nat} {o : CallOutcome}
    (h : substrate2eth s caller fp to_addr from_acc amount = Except.ok o) :
    (∃ pid o1, s.hashes fp = some pid ∧ _vote s caller pid true = Except.ok o1 ∧
       o = { o1 with state := { o1.state with
         ethAddresses := fun p => if p = pid then some to_addr
           else o1.state.ethAddresses p } }) ∨
    (∃ s1 o1, s.hashes fp = none ∧
       create_proposal s fp (Action.Substrate2Ethereum 0 from_acc amount) = Except.ok s1 ∧
       _vote s1 caller ((s1.hashes fp).getD 0) true = Except.ok o1 ∧
       o = { state := { o1.state with
               ethAddresses := fun p => if p = (s1.hashes fp).getD 0 then some to_addr
                 else o1.state.ethAddresses p },
             events := RawEvent.ProposeToBurn 0 from_acc amount :: o1.events,
             execs := o1.execs }) := by
  unfold substrate2eth at h
  dsimp only [] at h
  split at h
  · rename_i pid hfp
    split at h
    · exact absurd h (by simp)
    · rename_i o1 hv
      rw [Except.ok.injEq] at h
      exact Or.inl ⟨pid, o1, hfp, hv, h.symm⟩
  · rename_i hfp
    split at h
    · exact absurd h (by simp)
    · rename_i s1 hcr
      split at h
      · exact absurd h (by simp)
      · rename_i o1 hv
        rw [Except.ok.injEq] at h
        exact Or.inr ⟨s1, o1, hfp, hcr, hv, h.symm⟩

/-- Success inversion for `eth2substrate`, the mint-direction twin of
`sub2eth_ok_inv`. -/
theorem eth2sub_ok_inv {s : BridgeState} {caller fp : Nat} {from_addr : List Nat}
    {to_acc amount : Nat} {o : CallOutcome}
    (h : eth2substrate s caller fp from_addr to_acc amount = Except.ok o) :
    (∃ pid o1, s.hashes fp = some pid ∧ _vote s caller pid true = Except.ok o1 ∧
       o = { o1 with state := { o1.state with
         ethAddresses := fun p => if p = pid then some from_addr
           else o1.state.ethAddresses p } }) ∨
    (∃ s1 o1, s.hashes fp = none ∧
       create_proposal s fp (Action.Ethereum2Substrate 0 to_acc amount) = Except.ok s1 ∧
       _vote s1 caller ((s1.hashes fp).getD 0) true = Except.ok o1 ∧
       o = { state := { o1.state with
               ethAddresses := fun p => if p = (s1.hashes fp).getD 0 then some from_addr
                 else o1.state.ethAddresses p },
             events := RawEvent.ProposeToMint 0 to_acc amount :: o1.events,
             execs := o1.execs }) := by
  unfold eth2substrate at h
  dsimp only [] at h
  split at h
  · rename_i pid hfp
    split at h
    · exact absurd h (by simp)
    · rename_i o1 hv
      rw [Except.ok.injEq] at h
      exact Or.inl ⟨pid, o1, hfp, hv, h.symm⟩
  · rename_i hfp
    split at h
    · exact absurd h (by simp)
    · rename_i s1 hcr
      split at h
      · exact absurd h (by simp)
      · rename_i o1 hv
        rw [Except.ok.injEq] at h
        exact Or.inr ⟨s1, o1, hfp, hcr, hv, h.symm⟩

theorem closedIn_iff {s : BridgeState} {pid : Nat} :
    closedIn s pid = true ↔ ∃ p, s.proposals pid = some p ∧ p.open_ = false := by
  unfold closedIn
  cases h : s.proposals pid <;> simp [h]

theorem finalize_step_spec {s0 : BridgeState} {acc : BridgeState × List RawEvent} {pid : Nat}
    (hinv : SweepInv s0 acc) (hpid : (s0.proposals pid).isSome) :
    SweepInv s0 (finalize_step acc pid) ∧
    closedIn (finalize_step acc pid).1 pid = true ∧
    (∀ ev, ev ∈ acc.2 → ev ∈ (finalize_step acc pid).2) ∧
    (∀ q p, acc.1.proposals q = some p → p.open_ = false →
      (finalize_step acc pid).1.proposals q = some p) := by
  obtain ⟨hidm, hcnt, hbuck, hdisj⟩ := hinv
  have hsome : ∃ curp, acc.1.proposals pid = some curp := by
    rcases hdisj pid with h | ⟨p, hp0, _, hacc, _⟩
    · rw [h]; exact Option.isSome_iff_exists.mp hpid
    · exact ⟨_, hacc⟩
  obtain ⟨curp, hcur⟩ := hsome
  have hcid : curp.proposal_id = pid := hidm pid curp hcur
  unfold finalize_step
  rw [hcur]
  simp only [Option.getD_some]
  by_cases hopn : curp.open_ = true
  · rw [if_pos hopn]
    refine ⟨⟨?_, ?_, ?_, ?_⟩, ?_, ?_, ?_⟩
    · intro q r hq
      rw [close_proposals_at, hcid] at hq
      by_cases hqp : q = pid
      · rw [if_pos hqp] at hq
        cases hq
        exact hqp.symm
      · rw [if_neg hqp] at hq
        exact hidm q r hq
    · rw [close_count]; exact hcnt
    · rw [close_openProposals]; exact hbuck
    · intro q
      by_cases hqp : q = pid
      · subst hqp
        right
        rcases hdisj q with h | ⟨p, hp0, hpo, hq2, _⟩
        · refine ⟨curp, h ▸ hcur, hopn, ?_, by simp⟩
          rw [close_proposals_at, hcid, if_pos rfl]
        · rw [hcur] at hq2
          cases hq2
          simp at hopn
      · rw [close_proposals_at, hcid, if_neg hqp]
        rcases hdisj q with h | ⟨p, hp0, hpo, hq2, hev⟩
        · exact Or.inl h
        · exact Or.inr ⟨p, hp0, hpo, hq2, by simp [hev]⟩
    · rw [closedIn_iff]
      refine ⟨{ curp with open_ := false }, ?_, rfl⟩
      rw [close_proposals_at, hcid, if_pos rfl]
    · intro ev hev
      simp [hev]
    · intro q p hq hcl
      by_cases hqp : q = pid
      · subst hqp
        rw [hq] at hcur
        cases hcur
        rw [hopn] at hcl
        cases hcl
      · rw [close_proposals_at, hcid, if_neg hqp]
        exact hq
  · rw [if_neg hopn]
    refine ⟨⟨hidm, hcnt, hbuck, hdisj⟩, ?_, fun ev h => h, fun q p hq _ => hq⟩
    rw [closedIn_iff]
    exact ⟨curp, hcur, by simpa using hopn⟩

theorem sweep_fold {s0 : BridgeState} :
    ∀ (l : List Nat) (acc : BridgeState × List RawEvent), SweepInv s0 acc →
    (∀ pid ∈ l, (s0.proposals pid).isSome) →
    SweepInv s0 (l.foldl finalize_step acc) ∧
    (∀ ev ∈ acc.2, ev ∈ (l.foldl finalize_step acc).2) ∧
    (∀ q p, acc.1.proposals q = some p → p.open_ = false →
      (l.foldl finalize_step acc).1.proposals q = some p) ∧
    (∀ pid ∈ l, closedIn (l.foldl finalize_step acc).1 pid = true) := by
  intro l
  induction l with
  | nil =>
    intro acc hinv _
    exact ⟨hinv, fun ev h => h, fun q p hq _ => hq, by simp⟩
  | cons hd tl ih =>
    intro acc hinv hmem
    have hhd : (s0.proposals hd).isSome := hmem hd (by simp)
    obtain ⟨hinv1, hcl1, hev1, hpres1⟩ := finalize_step_spec hinv hhd
    obtain ⟨invF, evF, presF, closedF⟩ :=
      ih (finalize_step acc hd) hinv1 (fun pid h => hmem pid (by simp [h]))
    rw [List.foldl_cons]
    refine ⟨invF, ?_, ?_, ?_⟩
    · intro ev hev
      exact evF ev (hev1 ev hev)
    · intro q p hq hcl
      exact presF q p (hpres1 q p hq hcl) hcl
    · intro pid hpid
      rcases List.mem_cons.mp hpid with h | h
      · subst h
        obtain ⟨p, hp, hcl⟩ := closedIn_iff.mp hcl1
        rw [closedIn_iff]
        exact ⟨p, presF pid p hp hcl, hcl⟩
      · exact closedF pid h

/-- The sweep of `on_finalize`, from a well-formed state: invariant holds of
the swept pair, closed records are preserved, every bucket entry ends closed. -/
theorem on_finalize_spec {s : BridgeState} (hid : IdMatch s)
    (hmem : ∀ pid ∈ s.openProposals s.blockNumber, (s.proposals pid).isSome) :
    SweepInv s ((s.openProposals s.blockNumber).foldl finalize_step (s, [])) ∧
    (∀ q p, s.proposals q = some p → p.open_ = false →
      ((s.openProposals s.blockNumber).foldl finalize_step (s, [])).1.proposals q = some p) ∧
    (∀ pid ∈ s.openProposals s.blockNumber,
      closedIn ((s.openProposals s.blockNumber).foldl finalize_step (s, [])).1 pid = true) := by
  have hbase : SweepInv s (s, ([] : List RawEvent)) := ⟨hid, rfl, rfl, fun q => Or.inl rfl⟩
  obtain ⟨hinv, _, hpres, hclosed⟩ := sweep_fold (s.openProposals s.blockNumber) (s, []) hbase hmem
  exact ⟨hinv, hpres, hclosed⟩

/-- `on_finalize` (with the block advance of `stepCmd`) preserves `WF`. -/
theorem finalize_wf {s : BridgeState} (hwf : WF s) : WF (stepCmd s Cmd.finalize).1 := by
  obtain ⟨hinv, hpres, hclosed⟩ :=
    on_finalize_spec hwf.1 (fun pid h => hwf.2.2 s.blockNumber pid h)
  obtain ⟨hidm, hcnt, hbuck, hdisj⟩ := hinv
  refine ⟨?_, ?_, ?_⟩
  · intro q r hq
    exact hidm q r hq
  · intro q hq
    have : ((s.openProposals s.blockNumber).foldl finalize_step (s, [])).1.proposalsCount
        = s.proposalsCount := hcnt
    rcases hdisj q with h | ⟨p, hp0, _, hq2, _⟩
    · show q < ((s.openProposals s.blockNumber).foldl finalize_step (s, [])).1.proposalsCount
      rw [hcnt]
      exact hwf.2.1 q (by rw [← h]; exact hq)
    · show q < ((s.openProposals s.blockNumber).foldl finalize_step (s, [])).1.proposalsCount
      rw [hcnt]
      exact hwf.2.1 q (by rw [hp0]; rfl)
  · intro bn q hq
    have hbn : (stepCmd s Cmd.finalize).1.openProposals bn =
        if bn = s.blockNumber then []
        else ((s.openProposals s.blockNumber).foldl finalize_step (s, [])).1.openProposals bn := rfl
    rw [hbn] at hq
    by_cases hb : bn = s.blockNumber
    · rw [if_pos hb] at hq
      exact absurd hq (List.not_mem_nil q)
    · rw [if_neg hb, hbuck] at hq
      have hq' : (s.proposals q).isSome := hwf.2.2 bn q hq
      rcases hdisj q with h | ⟨p, hp0, _, hq2, _⟩
      · show (((s.openProposals s.blockNumber).foldl finalize_step (s, [])).1.proposals q).isSome
        rw [h]; exact hq'
      · show (((s.openProposals s.blockNumber).foldl finalize_step (s, [])).1.proposals q).isSome
        rw [hq2]; rfl

/-- Every step of the machine preserves `WF`. -/
theorem step_wf {s : BridgeState} (hwf : WF s) (c : Cmd) : WF (stepCmd s c).1 := by
  cases c with
  | sub2eth caller fp t f a =>
    show WF (match substrate2eth s caller fp t f a with
      | Except.error _ => (s, ([] : List RawEvent), ([] : List Execution))
      | Except.ok o => (o.state, o.events, o.execs)).1
    cases hres : substrate2eth s caller fp t f a with
    | error e => exact hwf
    | ok o =>
      rcases sub2eth_ok_inv hres with ⟨pid, o1, hfp, hv, ho⟩ | ⟨s1, o1, hfp, hcr, hv, ho⟩
      · subst ho; exact vote_wf hwf hv
      · subst ho; exact vote_wf (create_wf hwf hcr) hv
  | eth2sub caller fp f t a =>
    show WF (match eth2substrate s caller fp f t a with
      | Except.error _ => (s, ([] : List RawEvent), ([] : List Execution))
      | Except.ok o => (o.state, o.events, o.execs)).1
    cases hres : eth2substrate s caller fp f t a with
    | error e => exact hwf
    | ok o =>
      rcases eth2sub_ok_inv hres with ⟨pid, o1, hfp, hv, ho⟩ | ⟨s1, o1, hfp, hcr, hv, ho⟩
      · subst ho; exact vote_wf hwf hv
      · subst ho; exact vote_wf (create_wf hwf hcr) hv
  | vote voter pid v =>
    show WF (match _vote s voter pid v with
      | Except.error _ => (s, ([] : List RawEvent), ([] : List Execution))
      | Except.ok o => (o.state, o.events, o.execs)).1
    cases hres : _vote s voter pid v with
    | error e => exact hwf
    | ok o => exact vote_wf hwf hres
  | finalize => exact finalize_wf hwf

/-- Once a record is closed, no step changes it. -/
theorem step_preserves_closed {s : BridgeState} (hwf : WF s) {q : Nat} {p : BridgeProposal}
    (hq : s.proposals q = some p) (hcl : p.open_ = false) (c : Cmd) :
    (stepCmd s c).1.proposals q = some p := by
  cases c with
  | sub2eth caller fp t f a =>
    show (match substrate2eth s caller fp t f a with
      | Except.error _ => (s, ([] : List RawEvent), ([] : List Execution))
      | Except.ok o => (o.state, o.events, o.execs)).1.proposals q = some p
    cases hres : substrate2eth s caller fp t f a with
    | error e => exact hq
    | ok o =>
      rcases sub2eth_ok_inv hres with ⟨pid, o1, hfp, hv, ho⟩ | ⟨s1, o1, hfp, hcr, hv, ho⟩
      · subst ho; exact vote_preserves_closed hwf.1 hq hcl hv
      · subst ho
        exact vote_preserves_closed (create_wf hwf hcr).1
          (create_preserves_record hwf.2.1 hcr hq) hcl hv
  | eth2sub caller fp f t a =>
    show (match eth2substrate s caller fp f t a with
      | Except.error _ => (s, ([] : List RawEvent), ([] : List Execution))
      | Except.ok o => (o.state, o.events, o.execs)).1.proposals q = some p
    cases hres : eth2substrate s caller fp f t a with
    | error e => exact hq
    | ok o =>
      rcases eth2sub_ok_inv hres with ⟨pid, o1, hfp, hv, ho⟩ | ⟨s1, o1, hfp, hcr, hv, ho⟩
      · subst ho; exact vote_preserves_closed hwf.1 hq hcl hv
      · subst ho
        exact vote_preserves_closed (create_wf hwf hcr).1
          (create_preserves_record hwf.2.1 hcr hq) hcl hv
  | vote voter pid v =>
    show (match _vote s voter pid v with
      | Except.error _ => (s, ([] : List RawEvent), ([] : List Execution))
      | Except.ok o => (o.state, o.events, o.execs)).1.proposals q = some p
    cases hres : _vote s voter pid v with
    | error e => exact hq
    | ok o => exact vote_preserves_closed hwf.1 hq hcl hres
  | finalize =>
    exact (on_finalize_spec hwf.1 (fun r h => hwf.2.2 s.blockNumber r h)).2.1 q p hq hcl

theorem stepCmd_sub2eth (s : BridgeState) (caller fp : Nat) (t : List Nat) (f a : Nat) :
    stepCmd s (Cmd.sub2eth caller fp t f a) =
      match substrate2eth s caller fp t f a with
      | Except.error _ => (s, [], [])
      | Except.ok o => (o.state, o.events, o.execs) := rfl

theorem stepCmd_eth2sub (s : BridgeState) (caller fp : Nat) (f : List Nat) (t a : Nat) :
    stepCmd s (Cmd.eth2sub caller fp f t a) =
      match eth2substrate s caller fp f t a with
      | Except.error _ => (s, [], [])
      | Except.ok o => (o.state, o.events, o.execs) := rfl

/-- Every executor invocation a step makes targets a proposal that is not
closed before the step, closes it in the same step, deposits its
`ProposalIsAccepted` event in the same step, and is the step's only
invocation. -/
theorem step_exec_spec {s : BridgeState} (hwf : WF s) {c : Cmd} {e : Execution}
    (he : e ∈ (stepCmd s c).2.2) :
    closedIn s e.1 = false ∧ closedIn (stepCmd s c).1 e.1 = true ∧
    RawEvent.ProposalIsAccepted e.1 ∈ (stepCmd s c).2.1 ∧ (stepCmd s c).2.2 = [e] := by
  cases c with
  | sub2eth caller fp t f a =>
    rw [stepCmd_sub2eth] at he ⊢
    cases hres : substrate2eth s caller fp t f a with
    | error err => rw [hres] at he; exact absurd he (List.not_mem_nil e)
    | ok o =>
      rw [hres] at he
      rcases sub2eth_ok_inv hres with ⟨pid, o1, hfp, hv, ho⟩ | ⟨s1, o1, hfp, hcr, hv, ho⟩
      · subst ho
        obtain ⟨he1, hcl0, hcl1, hev, hexecs⟩ := vote_exec_spec hwf.1 hv he
        rw [he1]
        exact ⟨hcl0, hcl1, hev, by rw [hexecs, ← he1]⟩
      · subst ho
        obtain ⟨hh, hrec, hnone, _⟩ := create_hashes_at hwf.2.1 hcr
        obtain ⟨he1, hcl0, hcl1, hev, hexecs⟩ := vote_exec_spec (create_wf hwf hcr).1 hv he
        rw [he1]
        refine ⟨?_, hcl1, List.mem_cons_of_mem _ hev, by rw [hexecs, ← he1]⟩
        have hpid : (s1.hashes fp).getD 0 = s.proposalsCount := by rw [hh]; rfl
        rw [hpid]
        unfold closedIn
        rw [hnone]
  | eth2sub caller fp f t a =>
    rw [stepCmd_eth2sub] at he ⊢
    cases hres : eth2substrate s caller fp f t a with
    | error err => rw [hres] at he; exact absurd he (List.not_mem_nil e)
    | ok o =>
      rw [hres] at he
      rcases eth2sub_ok_inv hres with ⟨pid, o1, hfp, hv, ho⟩ | ⟨s1, o1, hfp, hcr, hv, ho⟩
      · subst ho
        obtain ⟨he1, hcl0, hcl1, hev, hexecs⟩ := vote_exec_spec hwf.1 hv he
        rw [he1]
        exact ⟨hcl0, hcl1, hev, by rw [hexecs, ← he1]⟩
      · subst ho
        obtain ⟨hh, hrec, hnone, _⟩ := create_hashes_at hwf.2.1 hcr
        obtain ⟨he1, hcl0, hcl1, hev, hexecs⟩ := vote_exec_spec (create_wf hwf hcr).1 hv he
        rw [he1]
        refine ⟨?_, hcl1, List.mem_cons_of_mem _ hev, by rw [hexecs, ← he1]⟩
        have hpid : (s1.hashes fp).getD 0 = s.proposalsCount := by rw [hh]; rfl
        rw [hpid]
        unfold closedIn
        rw [hnone]
  | vote voter pid v =>
    revert he
    rw [show stepCmd s (Cmd.vote voter pid v) =
        match _vote s voter pid v with
        | Except.error _ => (s, [], [])
        | Except.ok o => (o.state, o.events, o.execs) from rfl]
    cases hres : _vote s voter pid v with
    | error err => intro he; exact absurd he (List.not_mem_nil e)
    | ok o =>
      intro he
      obtain ⟨he1, hcl0, hcl1, hev, hexecs⟩ := vote_exec_spec hwf.1 hres he
      rw [he1]
      exact ⟨hcl0, hcl1, hev, hexecs⟩
  | finalize => exact absurd he (List.not_mem_nil e)

theorem execCount_cons (st : Step) (tr : List Step) (pid : Nat) :
    execCount (st :: tr) pid =
      st.execs.countP (fun e => e.1 == pid) + execCount tr pid := by
  simp [execCount]

theorem runState_wf : ∀ (cmds : List Cmd) (s : BridgeState), WF s → WF (runState s cmds) := by
  intro cmds
  induction cmds with
  | nil => intro s hwf; exact hwf
  | cons c cs ih => intro s hwf; exact ih (stepCmd s c).1 (step_wf hwf c)

theorem trace_preserves_closed : ∀ (cmds : List Cmd) (s : BridgeState), WF s →
    ∀ pid p, s.proposals pid = some p → p.open_ = false →
    (runState s cmds).proposals pid = some p := by
  intro cmds
  induction cmds with
  | nil => intro s _ pid p hp _; exact hp
  | cons c cs ih =>
    intro s hwf pid p hp hcl
    exact ih (stepCmd s c).1 (step_wf hwf c) pid p (step_preserves_closed hwf hp hcl c) hcl

theorem trace_exec_once : ∀ (cmds : List Cmd) (s : BridgeState), WF s → ∀ pid,
    execCount (runTrace s cmds) pid ≤ 1 ∧
    (closedIn s pid = true → execCount (runTrace s cmds) pid = 0) := by
  intro cmds
  induction cmds with
  | nil => intro s _ pid; exact ⟨by simp [runTrace, execCount], fun _ => by simp [runTrace, execCount]⟩
  | cons c cs ih =>
    intro s hwf pid
    have hwf' : WF (stepCmd s c).1 := step_wf hwf c
    have htail := ih (stepCmd s c).1 hwf' pid
    have hhead : runTrace s (c :: cs) =
        { pre := s, post := (stepCmd s c).1, events := (stepCmd s c).2.1,
          execs := (stepCmd s c).2.2 } :: runTrace (stepCmd s c).1 cs := rfl
    rw [hhead, execCount_cons]
    by_cases hk : (stepCmd s c).2.2.countP (fun e => e.1 == pid) = 0
    · rw [hk]
      simp only [Nat.zero_add]
      refine ⟨htail.1, fun hcl => ?_⟩
      obtain ⟨p, hp, hpo⟩ := closedIn_iff.mp hcl
      exact htail.2 (closedIn_iff.mpr ⟨p, step_preserves_closed hwf hp hpo c, hpo⟩)
    · have hpos : 0 < (stepCmd s c).2.2.countP (fun e => e.1 == pid) := Nat.pos_of_ne_zero hk
      obtain ⟨e, he, hep⟩ := List.countP_pos_iff.mp hpos
      have hepid : e.1 = pid := by simpa using hep
      obtain ⟨hcl0, hcl1, _, hexecs⟩ := step_exec_spec hwf he
      have hone : (stepCmd s c).2.2.countP (fun e => e.1 == pid) = 1 := by
        rw [hexecs]
        simp [hep]
      rw [hone]
      have htail0 : execCount (runTrace (stepCmd s c).1 cs) pid = 0 :=
        htail.2 (hepid ▸ hcl1)
      rw [htail0]
      refine ⟨Nat.le_refl 1, fun hcl => ?_⟩
      rw [hepid] at hcl0
      rw [hcl] at hcl0
      cases hcl0

theorem trace_exec_steps : ∀ (cmds : List Cmd) (s : BridgeState), WF s →
    ∀ st ∈ runTrace s cmds, ∀ e ∈ st.execs,
    closedIn st.pre e.1 = false ∧ closedIn st.post e.1 = true ∧
    RawEvent.ProposalIsAccepted e.1 ∈ st.events ∧ st.execs = [e] := by
  intro cmds
  induction cmds with
  | nil => intro s _ st hst; exact absurd hst (List.not_mem_nil st)
  | cons c cs ih =>
    intro s hwf st hst e he
    have hhead : runTrace s (c :: cs) =
        { pre := s, post := (stepCmd s c).1, events := (stepCmd s c).2.1,
          execs := (stepCmd s c).2.2 } :: runTrace (stepCmd s c).1 cs := rfl
    rw [hhead] at hst
    rcases List.mem_cons.mp hst with h | h
    · subst h
      exact step_exec_spec hwf he
    · exact ih (stepCmd s c).1 (step_wf hwf c) st h e he

/-- C1: for every proposal, over any run of the machine from genesis (any
sequence of submissions, votes and block-finalize ticks), the executor is
invoked at most once, and only on a step on which the proposal is not yet
closed, becomes closed, and whose events carry its `ProposalIsAccepted`
transition. -/
theorem executor_exactly_once (cmds : List Cmd) (pid : Nat) :
    execCount (runTrace genesis cmds) pid ≤ 1 ∧
    ∀ st ∈ runTrace genesis cmds, ∀ a : Action, (pid, a) ∈ st.execs →
      closedIn st.pre pid = false ∧ closedIn st.post pid = true ∧
      RawEvent.ProposalIsAccepted pid ∈ st.events := by
  constructor
  · exact (trace_exec_once cmds genesis wf_genesis pid).1
  · intro st hst a ha
    obtain ⟨h1, h2, h3, _⟩ := trace_exec_steps cmds genesis wf_genesis st hst (pid, a) ha
    exact ⟨h1, h2, h3⟩

/-- C9: once a stored record is closed, every subsequent run of the machine
leaves the record (votes count and action included) unchanged, and a direct
vote on it fails with the not-open error. -/
theorem closed_is_final (s : BridgeState) (pid : Nat) (p : BridgeProposal)
    (hwf : WF s) (hp : s.proposals pid = some p) (hcl : p.open_ = false) :
    (∀ cmds, (runState s cmds).proposals pid = some p) ∧
    ∀ voter v, _vote s voter pid v = Except.error "This proposal is not open" := by
  constructor
  · intro cmds
    exact trace_preserves_closed cmds s hwf pid p hp hcl
  · intro voter v
    exact vote_closed_fails hp hcl

/-- Witness for `closed_is_final` at the reachable closed proposal 0 of
`c9state`: a later finalize tick leaves the record untouched and a direct
vote fails. -/
theorem closed_is_final_witness :
    (runState c9state [Cmd.finalize]).proposals 0 = some c9record ∧
    _vote c9state 9 0 true = Except.error "This proposal is not open" := by
  have h := closed_is_final c9state 0 c9record
    (runState_wf c9cmds genesis wf_genesis) (by decide) (by decide)
  exact ⟨h.1 [Cmd.finalize], h.2 9 true⟩

/-- C2: the acceptance test of the code (`votes_are_enough`, an f64
comparison) disagrees with the spec's exact integer rule
`votes * 100 >= 51 * validatorCount`: at 153000000000026 votes of
300000000000051 validators the quotient is 0.51 minus about 1e-17, which
rounds up to the binary64 value of 0.51, so the code accepts while the
integer rule rejects (15300000000002600 < 15300000000002601). -/
theorem float_threshold_diverges :
    votes_are_enough 153000000000026 300000000000051 = true ∧
    spec_votes_are_enough 153000000000026 300000000000051 = false ∧
    153000000000026 * 100 < 51 * 300000000000051 := by
  refine ⟨by decide, by decide, by decide⟩

/-- C3: with `validatorsCount = 6`, the third assenting vote closes the
proposal as Rejected — the full-turnout comparison is the hardcoded literal
`votes_count == 3`, not the configured validator count — even though only 3
of the 6 configured validators have voted and no executor ran. -/
theorem hardcoded_turnout_rejects :
    c3state.validatorsCount = 6 ∧
    okResult (_vote c3state 7 0 true) = true ∧
    RawEvent.ProposalIsRejected 0 ∈ eventsOf (_vote c3state 7 0 true) ∧
    (postState (_vote c3state 7 0 true) c3state).proposals 0 =
      some { proposal_id := 0, action := Action.EmptyAction, open_ := false,
             voting_deadline := 30, votes_count := 3 } ∧
    execsOf (_vote c3state 7 0 true) = [] := by
  refine ⟨rfl, by decide, by decide, by decide, by decide⟩

/-- C4: after two successful creations the proposal counter reads 3, not 2 —
`create_proposal` runs `mutate(|count| *count += new_bridge_proposals_count)`,
adding the incremented counter to itself — so the counter does not equal the
number of proposals ever created (ids 0 and 1 exist, 2 was never allocated). -/
theorem counter_overshoots :
    c4state.proposalsCount = 3 ∧
    (c4state.proposals 0).isSome = true ∧
    (c4state.proposals 1).isSome = true ∧
    c4state.proposals 2 = none ∧
    c4state.proposals 3 = none := by
  refine ⟨by decide, by decide, by decide, by decide, by decide⟩

/-- C8: `_vote` performs no validator-membership check: with an empty
validator registry, a vote from caller 42 succeeds and increments the tally. -/
theorem unauthorized_vote_accepted :
    c8state.validators = (fun _ => none) ∧
    okResult (_vote c8state 42 0 true) = true ∧
    (postState (_vote c8state 42 0 true) c8state).proposals 0 =
      some { proposal_id := 0, action := Action.EmptyAction, open_ := true,
             voting_deadline := 30, votes_count := 1 } := by
  refine ⟨rfl, by decide, by decide⟩

/-- C10: a dissenting vote on an open proposal below the acceptance threshold
and below the (hardcoded) full-turnout count succeeds and leaves the state
record-for-record unchanged; its only observable effect is the `NewVote`
notification. -/
theorem dissent_vote_frame (s : BridgeState) (voter pid : Nat) (p : BridgeProposal)
    (hp : s.proposals pid = some p) (hopen : p.open_ = true)
    (hacc : votes_are_enough p.votes_count s.validatorsCount = false)
    (hturn : p.votes_count < 3) :
    _vote s voter pid false =
      Except.ok { state := s, events := [RawEvent.NewVote pid voter false], execs := [] } := by
  have h3 : (p.votes_count == 3) = false := by
    simp only [beq_eq_false_iff_ne, ne_eq]
    omega
  have hstate : (fun q => if q = pid then some p else s.proposals q) = s.proposals := by
    funext q
    by_cases hq : q = pid
    · subst hq; rw [if_pos rfl, hp]
    · rw [if_neg hq]
  unfold _vote
  rw [hp]
  simp only [hopen, Bool.true_eq_false, if_false, if_neg]
  unfold vote_finish
  simp only [hacc, h3, Bool.or_self, Bool.false_eq_true, if_false, hstate]

/-- Witness for `dissent_vote_frame` at `c10state`. -/
theorem dissent_vote_frame_witness :
    _vote c10state 5 0 false =
      Except.ok { state := c10state, events := [RawEvent.NewVote 0 5 false], execs := [] } :=
  dissent_vote_frame c10state 5 0
    { proposal_id := 0, action := Action.EmptyAction, open_ := true,
      voting_deadline := 30, votes_count := 1 }
    (by decide) (by decide) (by decide) (by decide)

/-- A vote on an existing open proposal always succeeds, returning the
resolution tail of the tallied record. -/
theorem vote_open_succeeds {s : BridgeState} {voter pid : Nat} {v : Bool} {p : BridgeProposal}
    (hp : s.proposals pid = some p) (hopen : p.open_ = true) :
    _vote s voter pid v = Except.ok (vote_finish s voter pid v
      (if v then { p with votes_count := p.votes_count + 1 } else p)) := by
  unfold _vote
  rw [hp]
  simp [hopen]

/-- C6: the block-finalize sweep closes every proposal of the current
height's bucket that is still open and deposits its `ProposalIsExpired`
event, clears the bucket entirely, and the step invokes no executor. -/
theorem finalize_expires_bucket (s : BridgeState) (hid : IdMatch s)
    (hmem : ∀ pid ∈ s.openProposals s.blockNumber, (s.proposals pid).isSome) :
    (∀ pid ∈ s.openProposals s.blockNumber, openIn s pid = true →
       closedIn (on_finalize s).1 pid = true ∧
       RawEvent.ProposalIsExpired pid ∈ (on_finalize s).2) ∧
    (on_finalize s).1.openProposals s.blockNumber = [] ∧
    (stepCmd s Cmd.finalize).2.2 = [] := by
  obtain ⟨⟨hidm, hcnt, hbuck, hdisj⟩, hpres, hclosed⟩ := on_finalize_spec hid hmem
  refine ⟨?_, ?_, rfl⟩
  · intro pid hpid hopen
    have hcl : closedIn (on_finalize s).1 pid = true := hclosed pid hpid
    refine ⟨hcl, ?_⟩
    rcases hdisj pid with h | ⟨p, hp0, hpo, hq2, hev⟩
    · exfalso
      obtain ⟨p, hp, hpo⟩ := closedIn_iff.mp hcl
      have hp' : s.proposals pid = some p := by
        rw [← h]
        exact hp
      simp [openIn, hp', hpo] at hopen
    · exact hev
  · show (if s.blockNumber = s.blockNumber then []
      else ((s.openProposals s.blockNumber).foldl finalize_step (s, [])).1.openProposals
        s.blockNumber) = []
    rw [if_pos rfl]

/-- C5: when a fingerprint already maps to an open proposal, a submission
carrying it — in either direction — succeeds as a vote on that same proposal
(the `NewVote` event names it), leaves the proposal counter unchanged and
creates no record (the store's domain is untouched). -/
theorem dedup_same_fingerprint (s : BridgeState) (caller fp pid : Nat) (p : BridgeProposal)
    (to_addr from_addr : List Nat) (burn_acc mint_acc amount : Nat)
    (hwf : IdMatch s) (hfp : s.hashes fp = some pid)
    (hp : s.proposals pid = some p) (hopen : p.open_ = true) :
    (∃ o, substrate2eth s caller fp to_addr burn_acc amount = Except.ok o ∧
       o.state.proposalsCount = s.proposalsCount ∧
       (∀ q, (o.state.proposals q).isSome = (s.proposals q).isSome) ∧
       RawEvent.NewVote pid caller true ∈ o.events) ∧
    (∃ o, eth2substrate s caller fp from_addr mint_acc amount = Except.ok o ∧
       o.state.proposalsCount = s.proposalsCount ∧
       (∀ q, (o.state.proposals q).isSome = (s.proposals q).isSome) ∧
       RawEvent.NewVote pid caller true ∈ o.events) := by
  have hv : _vote s caller pid true = Except.ok (vote_finish s caller pid true
      { p with votes_count := p.votes_count + 1 }) := vote_open_succeeds hp hopen
  constructor
  · refine ⟨{ vote_finish s caller pid true { p with votes_count := p.votes_count + 1 } with
        state := { (vote_finish s caller pid true
            { p with votes_count := p.votes_count + 1 }).state with
          ethAddresses := fun q => if q = pid then some to_addr
            else (vote_finish s caller pid true
              { p with votes_count := p.votes_count + 1 }).state.ethAddresses q } }, ?_, ?_, ?_, ?_⟩
    · unfold substrate2eth
      simp only [hfp, hv]
    · exact (vote_frame hwf hv).1
    · exact fun q => (vote_frame hwf hv).2.2.2.2 q
    · exact List.mem_cons_self _ _
  · refine ⟨{ vote_finish s caller pid true { p with votes_count := p.votes_count + 1 } with
        state := { (vote_finish s caller pid true
            { p with votes_count := p.votes_count + 1 }).state with
          ethAddresses := fun q => if q = pid then some from_addr
            else (vote_finish s caller pid true
              { p with votes_count := p.votes_count + 1 }).state.ethAddresses q } }, ?_, ?_, ?_, ?_⟩
    · unfold eth2substrate
      simp only [hfp, hv]
    · exact (vote_frame hwf hv).1
    · exact fun q => (vote_frame hwf hv).2.2.2.2 q
    · exact List.mem_cons_self _ _

theorem c5state_idmatch : IdMatch c5state := by
  intro q r hq
  by_cases h : q = 0
  · subst h
    simp [c5state] at hq
    subst hq
    rfl
  · simp [c5state, h] at hq

/-- Witness for `dedup_same_fingerprint`: both directions of a re-attestation
of fingerprint 7 on `c5state` succeed. -/
theorem dedup_same_fingerprint_witness :
    okResult (substrate2eth c5state 4 7 [1] 8 11) = true ∧
    okResult (eth2substrate c5state 4 7 [2] 9 11) = true := by
  obtain ⟨⟨o1, h1, _, _, _⟩, ⟨o2, h2, _, _, _⟩⟩ :=
    dedup_same_fingerprint c5state 4 7 0
      { proposal_id := 0, action := Action.EmptyAction, open_ := true,
        voting_deadline := 30, votes_count := 0 }
      [1] [2] 8 9 11 c5state_idmatch (by decide) (by decide) (by decide)
  exact ⟨by rw [h1]; rfl, by rw [h2]; rfl⟩

theorem c6state_idmatch : IdMatch c6state := by
  intro q r hq
  by_cases h : q = 0
  · subst h
    simp [c6state] at hq
    subst hq
    rfl
  · simp [c6state, h] at hq

theorem c6state_mem : ∀ pid ∈ c6state.openProposals c6state.blockNumber,
    (c6state.proposals pid).isSome := by
  intro pid h
  have : pid = 0 := by simpa [c6state] using h
  subst this
  rfl

/-- Witness for `finalize_expires_bucket` at `c6state`: the sweep closes
proposal 0, deposits its expiry event, clears the bucket and executes
nothing. -/
theorem finalize_expires_bucket_witness :
    (closedIn (on_finalize c6state).1 0 = true ∧
      RawEvent.ProposalIsExpired 0 ∈ (on_finalize c6state).2) ∧
    (on_finalize c6state).1.openProposals c6state.blockNumber = [] ∧
    (stepCmd c6state Cmd.finalize).2.2 = [] := by
  obtain ⟨hclose, hbucket, hexec⟩ :=
    finalize_expires_bucket c6state c6state_idmatch c6state_mem
  exact ⟨hclose 0 (by decide) (by decide), hbucket, hexec⟩

/-- With the deadline bucket at (or over) the configured limit,
`create_proposal` fails with the capacity error before any write. -/
theorem create_full_err {s : BridgeState} {fp : Nat} {a : Action}
    (hlen : ¬ (s.openProposals (s.blockNumber + s.periodLimit)).length < s.openLimit) :
    create_proposal s fp a =
      Except.error "Maximum number of open proposals is reached for the target block, try later" := by
  unfold create_proposal
  simp [hlen]

/-- With a fresh fingerprint and room in the bucket, `create_proposal`
succeeds. -/
theorem create_fresh_ok {s : BridgeState} {fp : Nat} {a : Action}
    (hfresh : s.hashes fp = none)
    (hlen : (s.openProposals (s.blockNumber + s.periodLimit)).length < s.openLimit) :
    create_proposal s fp a = Except.ok { s with
      proposals := fun pid => if pid = s.proposalsCount then
          some { proposal_id := s.proposalsCount, action := a, open_ := true,
                 voting_deadline := s.blockNumber + s.periodLimit, votes_count := 0 }
        else s.proposals pid,
      proposalsCount := s.proposalsCount + (s.proposalsCount + 1),
      openProposals := fun bn => if bn = s.blockNumber + s.periodLimit then
          s.openProposals (s.blockNumber + s.periodLimit) ++ [s.proposalsCount]
        else s.openProposals bn,
      hashes := fun h => if h = fp then some s.proposalsCount else s.hashes h,
      hashesIndex := fun pid => if pid = s.proposalsCount then some fp
        else s.hashesIndex pid } := by
  unfold create_proposal
  simp [hlen, hfresh]

set_option maxRecDepth 8000 in
/-- C7 (amended): a submission with a fresh fingerprint fails with the
capacity error exactly when the number of entries in its target deadline
bucket — open or already-closed-early entries alike, since the bucket is
only pruned at the deadline sweep — has reached the configured limit; such a
failure leaves the state untouched and deposits and executes nothing. -/
theorem capacity_exactly_bucket_length (s : BridgeState) (caller fp : Nat)
    (to_addr from_addr : List Nat) (burn_acc mint_acc amount : Nat)
    (hfresh : s.hashes fp = none) :
    (substrate2eth s caller fp to_addr burn_acc amount =
        Except.error "Maximum number of open proposals is reached for the target block, try later" ↔
      s.openLimit ≤ (s.openProposals (s.blockNumber + s.periodLimit)).length) ∧
    (s.openLimit ≤ (s.openProposals (s.blockNumber + s.periodLimit)).length →
      stepCmd s (Cmd.sub2eth caller fp to_addr burn_acc amount) = (s, [], [])) ∧
    (eth2substrate s caller fp from_addr mint_acc amount =
        Except.error "Maximum number of open proposals is reached for the target block, try later" ↔
      s.openLimit ≤ (s.openProposals (s.blockNumber + s.periodLimit)).length) ∧
    (s.openLimit ≤ (s.openProposals (s.blockNumber + s.periodLimit)).length →
      stepCmd s (Cmd.eth2sub caller fp from_addr mint_acc amount) = (s, [], [])) := by
  by_cases hlen : (s.openProposals (s.blockNumber + s.periodLimit)).length < s.openLimit
  · obtain ⟨s1, hcr1⟩ : ∃ s1,
        create_proposal s fp (Action.Substrate2Ethereum 0 burn_acc amount) = Except.ok s1 :=
      ⟨_, create_fresh_ok hfresh hlen⟩
    obtain ⟨s2, hcr2⟩ : ∃ s2,
        create_proposal s fp (Action.Ethereum2Substrate 0 mint_acc amount) = Except.ok s2 :=
      ⟨_, create_fresh_ok hfresh hlen⟩
    obtain ⟨-, -, hs1eq⟩ := create_ok_inv hcr1
    obtain ⟨-, -, hs2eq⟩ := create_ok_inv hcr2
    have hfp1 : s1.hashes fp = some s.proposalsCount := by rw [hs1eq]; simp
    have hfp2 : s2.hashes fp = some s.proposalsCount := by rw [hs2eq]; simp
    have hp1 : s1.proposals s.proposalsCount =
        some { proposal_id := s.proposalsCount,
               action := Action.Substrate2Ethereum 0 burn_acc amount,
               open_ := true, voting_deadline := s.blockNumber + s.periodLimit,
               votes_count := 0 } := by
      rw [hs1eq]; simp
    have hp2 : s2.proposals s.proposalsCount =
        some { proposal_id := s.proposalsCount,
               action := Action.Ethereum2Substrate 0 mint_acc amount,
               open_ := true, voting_deadline := s.blockNumber + s.periodLimit,
               votes_count := 0 } := by
      rw [hs2eq]; simp
    obtain ⟨ov1, hv1⟩ : ∃ o, _vote s1 caller s.proposalsCount true = Except.ok o :=
      ⟨_, vote_open_succeeds hp1 rfl⟩
    obtain ⟨ov2, hv2⟩ : ∃ o, _vote s2 caller s.proposalsCount true = Except.ok o :=
      ⟨_, vote_open_succeeds hp2 rfl⟩
    have hsub1 : ∃ o, substrate2eth s caller fp to_addr burn_acc amount = Except.ok o := by
      refine ⟨{ state :=
                  { ov1.state with ethAddresses := fun q =>
                      if q = s.proposalsCount then some to_addr
                      else ov1.state.ethAddresses q },
                events := RawEvent.ProposeToBurn 0 burn_acc amount :: ov1.events,
                execs := ov1.execs }, ?_⟩
      unfold substrate2eth
      simp only [hfresh, hcr1, hfp1, Option.getD_some, hv1]
    have hsub2 : ∃ o, eth2substrate s caller fp from_addr mint_acc amount = Except.ok o := by
      refine ⟨{ state :=
                  { ov2.state with ethAddresses := fun q =>
                      if q = s.proposalsCount then some from_addr
                      else ov2.state.ethAddresses q },
                events := RawEvent.ProposeToMint 0 mint_acc amount :: ov2.events,
                execs := ov2.execs }, ?_⟩
      unfold eth2substrate
      simp only [hfresh, hcr2, hfp2, Option.getD_some, hv2]
    obtain ⟨o1, ho1⟩ := hsub1
    obtain ⟨o2, ho2⟩ := hsub2
    refine ⟨⟨fun hEq => ?_, fun hle => absurd hle (Nat.not_le.mpr hlen)⟩,
            fun hle => absurd hle (Nat.not_le.mpr hlen),
            ⟨fun hEq => ?_, fun hle => absurd hle (Nat.not_le.mpr hlen)⟩,
            fun hle => absurd hle (Nat.not_le.mpr hlen)⟩
    · rw [ho1] at hEq
      simp at hEq
    · rw [ho2] at hEq
      simp at hEq
  · have hcr1 : create_proposal s fp (Action.Substrate2Ethereum 0 burn_acc amount) =
        Except.error
          "Maximum number of open proposals is reached for the target block, try later" :=
      create_full_err hlen
    have hcr2 : create_proposal s fp (Action.Ethereum2Substrate 0 mint_acc amount) =
        Except.error
          "Maximum number of open proposals is reached for the target block, try later" :=
      create_full_err hlen
    have hs1 : substrate2eth s caller fp to_addr burn_acc amount =
        Except.error "Maximum number of open proposals is reached for the target block, try later" := by
      unfold substrate2eth
      simp only [hfresh, hcr1]
    have hs2 : eth2substrate s caller fp from_addr mint_acc amount =
        Except.error "Maximum number of open proposals is reached for the target block, try later" := by
      unfold eth2substrate
      simp only [hfresh, hcr2]
    have hle : s.openLimit ≤ (s.openProposals (s.blockNumber + s.periodLimit)).length :=
      Nat.le_of_not_lt hlen
    refine ⟨⟨fun _ => hle, fun _ => hs1⟩, fun _ => ?_, ⟨fun _ => hle, fun _ => hs2⟩, fun _ => ?_⟩
    · rw [stepCmd_sub2eth, hs1]
    · rw [stepCmd_eth2sub, hs2]

/-- C7 counterexample: from `c7state`, a fresh-fingerprint submission fails
with the capacity error although zero proposals are concurrently open in its
target deadline bucket, strictly below the limit of 2 — the check counts all
bucket entries, closed ones included. -/
theorem capacity_counts_closed_entries :
    isCapacityErr (substrate2eth c7state 1 30 [] 7 5) = true ∧
    c7state.hashes 30 = none ∧
    openCountInBucket c7state (c7state.blockNumber + c7state.periodLimit) = 0 ∧
    c7state.openLimit = 2 := by
  refine ⟨by decide, by decide, by decide, by decide⟩

/-- Witness for `capacity_exactly_bucket_length` at `c7state`: the full
bucket makes a fresh submission fail and the step leaves the state
untouched. -/
theorem capacity_exactly_bucket_length_witness :
    substrate2eth c7state 1 30 [] 7 5 =
      Except.error "Maximum number of open proposals is reached for the target block, try later" ∧
    stepCmd c7state (Cmd.sub2eth 1 30 [] 7 5) = (c7state, [], []) := by
  have h := capacity_exactly_bucket_length c7state 1 30 [] [] 7 9 5 (by decide)
  exact ⟨h.1.mpr (by decide), h.2.1 (by decide)⟩
end AkroBridge
